import Mathlib

/-!
# random_merge_video: clip allocation and combination loop

A shallow embedding of `src/main.go`.

* Durations are `float64` in the source and rationals here: a finite `float64` is a rational.
  The arithmetic of lines 183-265 is embedded twice.  The definitions whose name ends in `F64` are the
  program as it runs: every `+`, `-`, `*`, `/` is rounded to the nearest `float64`, ties to even.  The
  definitions without that qualifier are the same lines over exact arithmetic, for statements
  about durations taken as exact reals and for values on which no operation rounds.
* The only division in the program is `videoAvailableDuration / totalAvailableDuration`; the
  program reaches it only after the pre-check `totalAvailableDuration < TargetDuration` has
  failed, so with a positive target the divisor is positive on every path the program takes.
  Statements about the allocation loop run on its own say so when they need a non-zero
  divisor.
* Go's `int` is the 64-bit signed integer: results of `*` are wrapped with `wrapInt64`.
* The outside world (the random source, temporary-file creation, the ffmpeg processes) is an
  explicit environment argument.
-/

namespace RandomMergeVideo

/-! ## Data model -/

/-- Go: `type VideoInfo struct { Path string; Duration float64 }`. -/
structure VideoInfo where
  Path : String
  Duration : ℚ
deriving DecidableEq

/-- Go: `type Config struct`. -/
structure Config where
  NumCombinations : Int
  TargetDuration : ℚ
  MinDuration : ℚ
  MaxVideos : Int

/-! ## `factorial` on 64-bit signed integers -/

/-- Two's-complement wrap of a mathematical integer into `[-2^63, 2^63)`. -/
def wrapInt64 (x : Int) : Int := (x + 2 ^ 63) % 2 ^ 64 - 2 ^ 63

/-- Go: `func factorial(n int) int`. -/
def factorial (n : Int) : Int :=
  if n ≤ 1 then 1 else wrapInt64 (n * factorial (n - 1))
termination_by n.toNat
decreasing_by omega

/-- Lines 150-155 of `main`: `maxCombinations := factorial(len(videoInfos))` and the
clamp of `config.NumCombinations`; the result is the new `config.NumCombinations`. -/
def clampNumCombinations (numCombinations : Int) (len : Nat) : Int :=
  let maxCombinations := factorial (len : Int)
  if numCombinations > maxCombinations then maxCombinations else numCombinations

/-- Number of iterations of `for i := 0; i < config.NumCombinations; i++`. -/
def numAttempts (numCombinations : Int) (len : Nat) : Nat :=
  (clampNumCombinations numCombinations len).toNat

/-! ## `rand.Shuffle` -/

/-- The callback handed to `rand.Shuffle`: `xs[i], xs[j] = xs[j], xs[i]`. -/
def swap {α : Type} (xs : List α) (i j : Nat) : List α :=
  match xs[i]?, xs[j]? with
  | some a, some b => (xs.set i b).set j a
  | _, _ => xs

/-- The loop of `rand.Shuffle(n, swap)`: `for i := n - 1; i > 0; i-- { j := Intn(i+1); swap(i, j) }`.
`rnd i` is the raw value the random source yields at loop index `i`. -/
def shuffleFrom {α : Type} (rnd : Nat → Nat) : Nat → List α → List α
  | 0, xs => xs
  | i + 1, xs => shuffleFrom rnd i (swap xs (i + 1) (rnd (i + 1) % (i + 2)))

/-- Go: `rand.Shuffle(len(xs), func(i, j int) { xs[i], xs[j] = xs[j], xs[i] })`. -/
def shuffle {α : Type} (rnd : Nat → Nat) (xs : List α) : List α :=
  shuffleFrom rnd (xs.length - 1) xs

/-- Lines 135-142 of `main`: the cut of the discovered list to `config.MaxVideos`.
`none` is the slice-bounds run-time panic of `videoInfos[:config.MaxVideos]` for a negative
bound. -/
def selectVideos (config : Config) (rnd : Nat → Nat) (videoInfos : List VideoInfo) :
    Option (List VideoInfo) :=
  if (videoInfos.length : Int) > config.MaxVideos then
    if config.MaxVideos < 0 then none
    else some (shuffle rnd (videoInfos.take config.MaxVideos.toNat))
  else some videoInfos

/-! ## The allocation loop (lines 200-258), exact arithmetic -/

/-- What the outside world answers during one iteration of the allocation loop. -/
structure ClipEnv where
  /-- Value of `rand.Float64()`. -/
  rand : ℚ
  /-- Does `os.CreateTemp("", "clip-*.mp4")` succeed. -/
  createTempOk : Bool
  /-- Does `cutVideo` succeed. -/
  cutVideoOk : Bool
  /-- Does `filepath.Abs` succeed. -/
  absOk : Bool

/-- One call `cutVideo(video.Path, tempClip.Name(), startTime, clipDuration)`. -/
structure Clip where
  video : VideoInfo
  startTime : ℚ
  clipDuration : ℚ
deriving DecidableEq

/-- The variables of one attempt that the allocation loop updates.  `tempClips` records, for
every temporary clip file created, the trim request made for it; `fileList` the requests whose
clip was written to the concat list file. -/
structure AllocState where
  remainingDuration : ℚ
  totalDuration : ℚ
  tempClips : List Clip
  fileList : List Clip

/-- Lines 183-185: the state before the loop. -/
def initState (config : Config) : AllocState :=
  { remainingDuration := config.TargetDuration, totalDuration := 0, tempClips := [], fileList := [] }

/-- Lines 188-191 over exact arithmetic: `totalAvailableDuration += video.Duration - 1` over
the ordering. -/
def totalAvailableDuration (shuffled : List VideoInfo) : ℚ :=
  shuffled.foldl (fun acc video => acc + (video.Duration - 1)) 0

/-- Lines 207-219 over exact arithmetic: the clip duration chosen for `video` when
`remainingDuration` is left. -/
def clipDurationFor (config : Config) (totalAvailable remainingDuration : ℚ)
    (video : VideoInfo) : ℚ :=
  let videoAvailableDuration := video.Duration - 1
  let videoRatio := videoAvailableDuration / totalAvailable
  let clipDuration := config.TargetDuration * videoRatio
  let clipDuration := if clipDuration < config.MinDuration then config.MinDuration else clipDuration
  if remainingDuration - clipDuration < config.MinDuration then remainingDuration else clipDuration

/-- Lines 207-257 over exact arithmetic: the body of the allocation loop after the `break`
test; every `continue` returns the state reached so far. -/
def allocStep (config : Config) (totalAvailable : ℚ) (env : ClipEnv) (video : VideoInfo)
    (s : AllocState) : AllocState :=
  let clipDuration := clipDurationFor config totalAvailable s.remainingDuration video
  let maxStartTime := video.Duration - clipDuration - 1
  if maxStartTime ≤ 0 then s
  else
    let startTime := env.rand * maxStartTime
    if env.createTempOk = false then s
    else
      let s1 := { s with tempClips := s.tempClips ++ [⟨video, startTime, clipDuration⟩] }
      if env.cutVideoOk = false then s1
      else if env.absOk = false then s1
      else
        { s1 with
          fileList := s1.fileList ++ [⟨video, startTime, clipDuration⟩]
          totalDuration := s1.totalDuration + clipDuration
          remainingDuration := s1.remainingDuration - clipDuration }

/-- Lines 201-258 over exact arithmetic: `for _, video := range shuffled`, started at loop
position `i`. -/
def allocLoop (config : Config) (totalAvailable : ℚ) (env : Nat → ClipEnv) :
    Nat → List VideoInfo → AllocState → AllocState
  | _, [], s => s
  | i, video :: rest, s =>
    if s.remainingDuration ≤ 0 then s
    else allocLoop config totalAvailable env (i + 1) rest
      (allocStep config totalAvailable (env i) video s)

/-- The allocation loop run on an ordering from the initial state, with the
`totalAvailableDuration` of that ordering. -/
def allocate (config : Config) (env : Nat → ClipEnv) (shuffled : List VideoInfo) : AllocState :=
  allocLoop config (totalAvailableDuration shuffled) env 0 shuffled (initState config)

/-! ## One attempt and the whole run (lines 164-281) -/

/-- What the outside world answers during one iteration of the combination loop. -/
structure AttemptEnv where
  /-- Raw values of the random source used by `rand.Shuffle`. -/
  shuffleRand : Nat → Nat
  /-- Does `os.CreateTemp("", "filelist-*.txt")` succeed. -/
  tempFileOk : Bool
  /-- Answers for the iterations of the allocation loop. -/
  clip : Nat → ClipEnv
  /-- Does the concatenating ffmpeg process succeed. -/
  concatOk : Bool

/-- How one iteration of the combination loop ends. -/
inductive AttemptResult where
  /-- Line 178: the list file could not be created. -/
  | tempFileError
  /-- Line 197: skipped by the pre-check. -/
  | skippedAvailable
  /-- Line 264: skipped by the sufficiency check. -/
  | skippedTotal (s : AllocState)
  /-- Line 278: the concatenation failed. -/
  | concatError (s : AllocState)
  /-- Line 280: `results/combined_<i+1>.mp4` was written. -/
  | output (s : AllocState)

/-- Lines 187-280 over exact arithmetic for a given ordering `shuffled`. -/
def attemptOn (config : Config) (env : AttemptEnv) (shuffled : List VideoInfo) : AttemptResult :=
  if env.tempFileOk = false then .tempFileError
  else if totalAvailableDuration shuffled < config.TargetDuration then .skippedAvailable
  else
    let s := allocate config env.clip shuffled
    if s.totalDuration < config.TargetDuration then .skippedTotal s
    else if env.concatOk = false then .concatError s
    else .output s

/-- One iteration of the combination loop (lines 165-280). -/
def attempt (config : Config) (env : AttemptEnv) (videoInfos : List VideoInfo) : AttemptResult :=
  attemptOn config env (shuffle env.shuffleRand videoInfos)

/-- Does the attempt write its output file. -/
def AttemptResult.isOutput : AttemptResult → Bool
  | .output _ => true
  | _ => false

/-- What the outside world answers during the run of `main` from line 144 on. -/
structure RunEnv where
  /-- Does `os.MkdirAll("results", 0755)` succeed. -/
  mkdirOk : Bool
  /-- Answers for the iterations of the combination loop. -/
  attempt : Nat → AttemptEnv

/-- Lines 144-281: the 1-based indices `i + 1` of the files `results/combined_<i+1>.mp4` written
by the run, in order; `none` when fewer than two videos are available (line 146). -/
def run (config : Config) (env : RunEnv) (videoInfos : List VideoInfo) : Option (List Nat) :=
  if videoInfos.length < 2 then none
  else
    let numCombinations := clampNumCombinations config.NumCombinations videoInfos.length
    if env.mkdirOk = false then some []
    else
      some (((List.range numCombinations.toNat).filter
        (fun i => (attempt config (env.attempt i) videoInfos).isOutput)).map (fun i => i + 1))

/-! ## float64 arithmetic

A finite `float64` is a rational `n / 2 ^ k`.  Every arithmetic operation of the program
on `float64` yields the exact rational result rounded to the nearest `float64`, ties to even
(IEEE 754 binary64, the arithmetic of Go on amd64).  Overflow to an infinity and NaN are not
modelled: the model is the program on values of magnitude below `2 ^ 1024` and on non-zero
divisors. -/

/-- The power `2 ^ k` for an integer `k`. -/
def pow2 (k : Int) : ℚ :=
  if 0 ≤ k then ((2 ^ k.toNat : Nat) : ℚ) else 1 / ((2 ^ (-k).toNat : Nat) : ℚ)

/-- Halving `n` until it is below 2, at most `fuel` times: the number of halvings. -/
def log2Fuel : Nat → Nat → Nat
  | 0, _ => 0
  | fuel + 1, n => if n < 2 then 0 else log2Fuel fuel (n / 2) + 1

/-- The binary logarithm `⌊log₂ n⌋` of a positive natural number. -/
def log2Nat (n : Nat) : Nat := log2Fuel n n

/-- The binary exponent `⌊log₂ |q|⌋` of a non-zero rational `q = n / d`: it is
`log₂ n - log₂ d` or one less. -/
def expo (q : ℚ) : Int :=
  let n := q.num.natAbs
  let d := q.den
  let e0 : Int := (log2Nat n : Int) - (log2Nat d : Int)
  if 0 ≤ e0 then (if d * 2 ^ e0.toNat ≤ n then e0 else e0 - 1)
  else (if d ≤ n * 2 ^ (-e0).toNat then e0 else e0 - 1)

/-- Rounding of a rational to the nearest integer, ties to the even one. -/
def roundHalfEven (m : ℚ) : Int :=
  let f := Rat.floor m
  let r := m - f
  if r < 1 / 2 then f else if 1 / 2 < r then f + 1 else if f % 2 = 0 then f else f + 1

/-- Rounding of a rational to the nearest `float64`, ties to even: 53 significant bits for
`|q| ≥ 2 ^ (-1022)`, multiples of `2 ^ (-1074)` below. -/
def roundF64 (q : ℚ) : ℚ :=
  if q = 0 then 0
  else
    let e := max (expo q) (-1022)
    (roundHalfEven (q * pow2 (52 - e)) : ℚ) / pow2 (52 - e)

/-- The `float64` sum `a + b`. -/
def fadd (a b : ℚ) : ℚ := roundF64 (a + b)

/-- The `float64` difference `a - b`. -/
def fsub (a b : ℚ) : ℚ := roundF64 (a - b)

/-- The `float64` product `a * b`. -/
def fmul (a b : ℚ) : ℚ := roundF64 (a * b)

/-- The `float64` quotient `a / b`, for `b ≠ 0`. -/
def fdiv (a b : ℚ) : ℚ := roundF64 (a / b)

/-! ## The attempt in float64 (lines 183-280)

The definitions of this section are those of the two sections above with every arithmetic
operation of the source rounded to `float64`; comparisons are exact. -/

/-- Lines 188-191 in `float64`: `totalAvailableDuration += video.Duration - 1`. -/
def totalAvailableDurationF64 (shuffled : List VideoInfo) : ℚ :=
  shuffled.foldl (fun acc video => fadd acc (fsub video.Duration 1)) 0

/-- Lines 207-219 in `float64`. -/
def clipDurationForF64 (config : Config) (totalAvailable remainingDuration : ℚ)
    (video : VideoInfo) : ℚ :=
  let videoAvailableDuration := fsub video.Duration 1
  let videoRatio := fdiv videoAvailableDuration totalAvailable
  let clipDuration := fmul config.TargetDuration videoRatio
  let clipDuration := if clipDuration < config.MinDuration then config.MinDuration else clipDuration
  if fsub remainingDuration clipDuration < config.MinDuration then remainingDuration
  else clipDuration

/-- Lines 207-257 in `float64`: the body of the allocation loop after the `break` test. -/
def allocStepF64 (config : Config) (totalAvailable : ℚ) (env : ClipEnv) (video : VideoInfo)
    (s : AllocState) : AllocState :=
  let clipDuration := clipDurationForF64 config totalAvailable s.remainingDuration video
  let maxStartTime := fsub (fsub video.Duration clipDuration) 1
  if maxStartTime ≤ 0 then s
  else
    let startTime := fmul env.rand maxStartTime
    if env.createTempOk = false then s
    else
      let s1 := { s with tempClips := s.tempClips ++ [⟨video, startTime, clipDuration⟩] }
      if env.cutVideoOk = false then s1
      else if env.absOk = false then s1
      else
        { s1 with
          fileList := s1.fileList ++ [⟨video, startTime, clipDuration⟩]
          totalDuration := fadd s1.totalDuration clipDuration
          remainingDuration := fsub s1.remainingDuration clipDuration }

/-- Lines 201-258 in `float64`: `for _, video := range shuffled`, started at loop position
`i`. -/
def allocLoopF64 (config : Config) (totalAvailable : ℚ) (env : Nat → ClipEnv) :
    Nat → List VideoInfo → AllocState → AllocState
  | _, [], s => s
  | i, video :: rest, s =>
    if s.remainingDuration ≤ 0 then s
    else allocLoopF64 config totalAvailable env (i + 1) rest
      (allocStepF64 config totalAvailable (env i) video s)

/-- The `float64` allocation loop run on an ordering from the initial state, with the
`float64` `totalAvailableDuration` of that ordering. -/
def allocateF64 (config : Config) (env : Nat → ClipEnv) (shuffled : List VideoInfo) :
    AllocState :=
  allocLoopF64 config (totalAvailableDurationF64 shuffled) env 0 shuffled (initState config)

/-- Lines 187-280 in `float64` for a given ordering `shuffled`. -/
def attemptOnF64 (config : Config) (env : AttemptEnv) (shuffled : List VideoInfo) :
    AttemptResult :=
  if env.tempFileOk = false then .tempFileError
  else if totalAvailableDurationF64 shuffled < config.TargetDuration then .skippedAvailable
  else
    let s := allocateF64 config env.clip shuffled
    if s.totalDuration < config.TargetDuration then .skippedTotal s
    else if env.concatOk = false then .concatError s
    else .output s

/-! ## Auxiliary definitions -/

/-- Lines 207-209: `config.TargetDuration * ((video.Duration - 1) / totalAvailableDuration)`,
the clip duration before the floor and remainder rules. -/
def share (config : Config) (tot : ℚ) (video : VideoInfo) : ℚ :=
  config.TargetDuration * ((video.Duration - 1) / tot)

/-- Budget bookkeeping of the allocation loop: `0 ≤ remainingDuration`,
`totalDuration = TargetDuration - remainingDuration`, `totalDuration` is the sum over the list
file, and with `MinDuration ≤ TargetDuration` the remainder is `0` or at least `MinDuration`. -/
def Budget (config : Config) (s : AllocState) : Prop :=
  0 ≤ s.remainingDuration ∧
  s.totalDuration = config.TargetDuration - s.remainingDuration ∧
  s.totalDuration = (s.fileList.map Clip.clipDuration).sum ∧
  (config.MinDuration ≤ config.TargetDuration →
    s.remainingDuration = 0 ∨ config.MinDuration ≤ s.remainingDuration)

/-- Budget bookkeeping of the `float64` allocation loop: `remainingDuration` is not negative,
with `MinDuration ≤ TargetDuration` it is `0` or at least `MinDuration`, and `totalDuration` is
the `float64` sum, in order, of the clips written to the list file. -/
def BudgetF64 (config : Config) (s : AllocState) : Prop :=
  0 ≤ s.remainingDuration ∧
  (config.MinDuration ≤ config.TargetDuration →
    s.remainingDuration = 0 ∨ config.MinDuration ≤ s.remainingDuration) ∧
  s.totalDuration = (s.fileList.map Clip.clipDuration).foldl fadd 0

/-- Is `x` a `float64`, so that rounding leaves it unchanged. -/
def exact64 (x : ℚ) : Bool := decide (roundF64 x = x)

/-- Does none of the `float64` operations of lines 207-257 round, when the loop ranges over
`shuffled` with `total` accumulated so far and gives every video its proportional share: the
available duration, the ratio, the share, the remainder after the share, the two differences
of the window and the new total are all `float64` values. -/
def noRounding (config : Config) (tot : ℚ) : ℚ → List VideoInfo → Bool
  | _, [] => true
  | total, v :: rest =>
    exact64 (v.Duration - 1) && exact64 ((v.Duration - 1) / tot) &&
    exact64 (share config tot v) && exact64 ((rest.map (share config tot)).sum) &&
    exact64 (v.Duration - share config tot v) &&
    exact64 (v.Duration - share config tot v - 1) &&
    exact64 (total + share config tot v) &&
    noRounding config tot (total + share config tot v) rest

/-! ## Concrete inputs -/

/-- Video `A` of the scenario of the specification, 30 seconds. -/
def videoA : VideoInfo := ⟨"A", 30⟩

/-- Video `B` of the scenario of the specification, 40 seconds. -/
def videoB : VideoInfo := ⟨"B", 40⟩

/-- A third video of 40 seconds. -/
def videoC : VideoInfo := ⟨"C", 40⟩

/-- A video of 33 seconds. -/
def videoX : VideoInfo := ⟨"X", 33⟩

/-- Another video of 33 seconds. -/
def videoY : VideoInfo := ⟨"Y", 33⟩

/-- The scenario of the specification: target 60, minimum 5. -/
def cfgScenario : Config := ⟨5, 60, 5, 10⟩

/-- A configuration whose target (3 s) is shorter than its minimum clip duration (5 s). -/
def cfgShortTarget : Config := ⟨5, 3, 5, 10⟩

/-- Target 64 with minimum 5: exactly the available total `32 + 32` of `[X:33, Y:33]`. -/
def cfgBoundary : Config := ⟨5, 64, 5, 10⟩

/-- The default configuration (5 combinations, minimum 5, at most 10 videos) with target
`t`. -/
def cfgTarget (t : ℚ) : Config := ⟨5, t, 5, 10⟩

/-- A video of 59 seconds. -/
def video59 : VideoInfo := ⟨"v59", 59⟩

/-- A video of 9 seconds. -/
def video9 : VideoInfo := ⟨"v9", 9⟩

/-- A video of 7 seconds. -/
def video7 : VideoInfo := ⟨"v7", 7⟩

/-- A video of 17 seconds. -/
def video17 : VideoInfo := ⟨"v17", 17⟩

/-- A video of 49 seconds. -/
def video49 : VideoInfo := ⟨"v49", 49⟩

/-- A video of 12 seconds. -/
def video12 : VideoInfo := ⟨"v12", 12⟩

/-- A video of 13 seconds. -/
def video13 : VideoInfo := ⟨"v13", 13⟩

/-- A video of 25 seconds. -/
def video25 : VideoInfo := ⟨"v25", 25⟩

/-- The `float64` nearest to 26.8. -/
def f26_8 : ℚ := 7543529375845581 / 281474976710656

/-- The `float64` nearest to 41.8. -/
def f41_8 : ℚ := 2941413506626355 / 70368744177664

/-- A video whose duration is the `float64` 26.8. -/
def video26_8 : VideoInfo := ⟨"v26.8", f26_8⟩

/-- A configuration that keeps at most two videos. -/
def cfgTwo : Config := ⟨5, 60, 5, 2⟩

/-- Every external step of the allocation loop succeeds and `rand.Float64()` always yields
`r`. -/
def envOk (r : ℚ) : Nat → ClipEnv := fun _ => ⟨r, true, true, true⟩

/-- Every trim fails; every other external step succeeds. -/
def envCutFails : Nat → ClipEnv := fun _ => ⟨1/2, true, false, true⟩

/-- An attempt in which every external step succeeds. -/
def aenvOk : AttemptEnv := ⟨fun i => i, true, envOk (1/2), true⟩

/-! ## Shared lemmas on the allocation loop -/

theorem clipDurationFor_cases (config : Config) (tot rem : ℚ) (video : VideoInfo) :
    (clipDurationFor config tot rem video = rem ∨
      (config.MinDuration ≤ clipDurationFor config tot rem video ∧
        config.MinDuration ≤ rem - clipDurationFor config tot rem video)) := by
  unfold clipDurationFor
  simp only
  split_ifs with h1 h2 h2
  · exact Or.inl rfl
  · exact Or.inr ⟨le_refl _, not_lt.mp h2⟩
  · exact Or.inl rfl
  · exact Or.inr ⟨not_lt.mp h1, not_lt.mp h2⟩

theorem clipDurationFor_pos (config : Config) (tot rem : ℚ) (video : VideoInfo)
    (hM : 0 < config.MinDuration) (hrem : 0 < rem) :
    0 < clipDurationFor config tot rem video := by
  rcases clipDurationFor_cases config tot rem video with h | ⟨h, _⟩
  · rw [h]; exact hrem
  · exact lt_of_lt_of_le hM h

/-- The shape of the state after one loop body: unchanged, one more trim request, or one more
request that also reached the list file and was charged to the budget. -/
theorem allocStep_cases (config : Config) (tot : ℚ) (e : ClipEnv) (video : VideoInfo)
    (s : AllocState) :
    allocStep config tot e video s = s ∨
    (0 < video.Duration - clipDurationFor config tot s.remainingDuration video - 1 ∧
      (allocStep config tot e video s =
          { s with tempClips := s.tempClips ++
              [⟨video, e.rand * (video.Duration -
                clipDurationFor config tot s.remainingDuration video - 1),
                clipDurationFor config tot s.remainingDuration video⟩] } ∨
        allocStep config tot e video s =
          { remainingDuration :=
              s.remainingDuration - clipDurationFor config tot s.remainingDuration video
            totalDuration :=
              s.totalDuration + clipDurationFor config tot s.remainingDuration video
            tempClips := s.tempClips ++
              [⟨video, e.rand * (video.Duration -
                clipDurationFor config tot s.remainingDuration video - 1),
                clipDurationFor config tot s.remainingDuration video⟩]
            fileList := s.fileList ++
              [⟨video, e.rand * (video.Duration -
                clipDurationFor config tot s.remainingDuration video - 1),
                clipDurationFor config tot s.remainingDuration video⟩] })) := by
  unfold allocStep
  simp only
  split_ifs with h1 h2 h3 h4
  · exact Or.inl rfl
  · exact Or.inl rfl
  · exact Or.inr ⟨not_le.mp h1, Or.inl rfl⟩
  · exact Or.inr ⟨not_le.mp h1, Or.inl rfl⟩
  · exact Or.inr ⟨not_le.mp h1, Or.inr rfl⟩

/-- Loop invariants: what the body preserves while budget is left, the loop preserves. -/
theorem allocLoop_invariant (config : Config) (tot : ℚ) (env : Nat → ClipEnv)
    (E : ClipEnv → Prop) (hE : ∀ i, E (env i)) (I : AllocState → Prop)
    (hstep : ∀ e video s, E e → I s → 0 < s.remainingDuration →
      I (allocStep config tot e video s)) :
    ∀ (vs : List VideoInfo) (i : Nat) (s : AllocState), I s →
      I (allocLoop config tot env i vs s) := by
  intro vs
  induction vs with
  | nil => intro i s hs; simpa [allocLoop] using hs
  | cons video rest ih =>
    intro i s hs
    unfold allocLoop
    split_ifs with h
    · exact hs
    · exact ih (i + 1) _ (hstep (env i) video s (hE i) hs (not_le.mp h))

theorem budget_init (config : Config) (hT : 0 < config.TargetDuration) :
    Budget config (initState config) := by
  refine ⟨le_of_lt hT, ?_, ?_, ?_⟩
  · simp [initState]
  · simp [initState]
  · intro h; exact Or.inr h

theorem budget_step (config : Config) (tot : ℚ) (hM : 0 < config.MinDuration)
    (e : ClipEnv) (video : VideoInfo) (s : AllocState)
    (hs : Budget config s) (_hrem : 0 < s.remainingDuration) :
    Budget config (allocStep config tot e video s) := by
  obtain ⟨h0, h1, h2, h3⟩ := hs
  rcases allocStep_cases config tot e video s with h | ⟨_, h | h⟩
  · rw [h]; exact ⟨h0, h1, h2, h3⟩
  · rw [h]; exact ⟨h0, h1, h2, h3⟩
  · rw [h]
    rcases clipDurationFor_cases config tot s.remainingDuration video with hc | ⟨_, hc⟩
    · refine ⟨?_, ?_, ?_, ?_⟩
      · simp [hc]
      · simp only [hc]; rw [h1]; ring
      · simp only [hc, List.map_append, List.sum_append, List.map_cons, List.map_nil,
          List.sum_cons, List.sum_nil, add_zero]
        rw [h2]
      · intro _; left; simp [hc]
    · refine ⟨?_, ?_, ?_, ?_⟩
      · exact le_trans (le_of_lt hM) hc
      · simp only; rw [h1]; ring
      · simp only [List.map_append, List.sum_append, List.map_cons, List.map_nil,
          List.sum_cons, List.sum_nil, add_zero]
        rw [h2]
      · intro _; right; exact hc

theorem budget_loop (config : Config) (tot : ℚ) (env : Nat → ClipEnv)
    (hT : 0 < config.TargetDuration) (hM : 0 < config.MinDuration)
    (vs : List VideoInfo) :
    Budget config (allocLoop config tot env 0 vs (initState config)) :=
  allocLoop_invariant config tot env (fun _ => True) (fun _ => trivial) (Budget config)
    (fun e video s _ hs hrem => budget_step config tot hM e video s hs hrem)
    vs 0 (initState config) (budget_init config hT)

/-- A property of trim requests that holds for the request the body may add holds for every
recorded request after the body. -/
theorem allocStep_forall_clips (config : Config) (tot : ℚ) (e : ClipEnv) (video : VideoInfo)
    (s : AllocState) (P : Clip → Prop)
    (hs : (∀ c ∈ s.tempClips, P c) ∧ (∀ c ∈ s.fileList, P c))
    (hnew : 0 < video.Duration - clipDurationFor config tot s.remainingDuration video - 1 →
      P ⟨video, e.rand * (video.Duration -
          clipDurationFor config tot s.remainingDuration video - 1),
        clipDurationFor config tot s.remainingDuration video⟩) :
    (∀ c ∈ (allocStep config tot e video s).tempClips, P c) ∧
    (∀ c ∈ (allocStep config tot e video s).fileList, P c) := by
  rcases allocStep_cases config tot e video s with h | ⟨hm, h | h⟩
  · rw [h]; exact hs
  · rw [h]
    refine ⟨?_, hs.2⟩
    intro c hc
    rcases List.mem_append.mp hc with hc | hc
    · exact hs.1 c hc
    · rw [List.mem_singleton.mp hc]; exact hnew hm
  · rw [h]
    constructor
    · intro c hc
      rcases List.mem_append.mp hc with hc | hc
      · exact hs.1 c hc
      · rw [List.mem_singleton.mp hc]; exact hnew hm
    · intro c hc
      rcases List.mem_append.mp hc with hc | hc
      · exact hs.2 c hc
      · rw [List.mem_singleton.mp hc]; exact hnew hm

/-- With `0 < MinDuration ≤ TargetDuration` every recorded trim request, and so every entry of
the list file, is at least `MinDuration` long: the remainder is then always `0` or at least
`MinDuration`, so the rule `clipDuration = remainingDuration` cannot go below the floor. -/
theorem clips_ge_min_loop (config : Config) (tot : ℚ) (env : Nat → ClipEnv)
    (hT : 0 < config.TargetDuration) (hM : 0 < config.MinDuration)
    (hle : config.MinDuration ≤ config.TargetDuration) (vs : List VideoInfo) :
    (∀ c ∈ (allocLoop config tot env 0 vs (initState config)).tempClips,
      config.MinDuration ≤ c.clipDuration) ∧
    (∀ c ∈ (allocLoop config tot env 0 vs (initState config)).fileList,
      config.MinDuration ≤ c.clipDuration) := by
  have key := allocLoop_invariant config tot env (fun _ => True) (fun _ => trivial)
    (fun s => Budget config s ∧ ((∀ c ∈ s.tempClips, config.MinDuration ≤ c.clipDuration) ∧
      (∀ c ∈ s.fileList, config.MinDuration ≤ c.clipDuration)))
    (fun e video s _ hs hrem => by
      refine ⟨budget_step config tot hM e video s hs.1 hrem, ?_⟩
      apply allocStep_forall_clips config tot e video s _ hs.2
      intro _
      rcases clipDurationFor_cases config tot s.remainingDuration video with hc | ⟨hc, _⟩
      · show config.MinDuration ≤ clipDurationFor config tot s.remainingDuration video
        rw [hc]
        rcases hs.1.2.2.2 hle with h0 | h0
        · rw [h0] at hrem; exact absurd hrem (lt_irrefl _)
        · exact h0
      · exact hc)
    vs 0 (initState config) ⟨budget_init config hT, by simp [initState]⟩
  exact key.2

/-! ## C1: trim windows -/

/-- C1: every trim request `(video, startTime, clipDuration)` the allocation loop makes on an
ordering, with every random draw in `[0, 1)`, has `0 ≤ startTime` and
`startTime + clipDuration ≤ video.Duration`.  (The bounds hold for every configuration, in
particular for every one with positive target and minimum.) -/
theorem C1_trim_window_bounds (config : Config) (env : Nat → ClipEnv)
    (shuffled : List VideoInfo)
    (hr : ∀ i, 0 ≤ (env i).rand ∧ (env i).rand < 1) :
    ∀ c ∈ (allocate config env shuffled).tempClips,
      0 ≤ c.startTime ∧ c.startTime + c.clipDuration ≤ c.video.Duration := by
  have key := allocLoop_invariant config (totalAvailableDuration shuffled) env
    (fun e => 0 ≤ e.rand ∧ e.rand < 1) hr
    (fun s => (∀ c ∈ s.tempClips,
        0 ≤ c.startTime ∧ c.startTime + c.clipDuration ≤ c.video.Duration) ∧
      (∀ c ∈ s.fileList,
        0 ≤ c.startTime ∧ c.startTime + c.clipDuration ≤ c.video.Duration))
    (fun e video s he hs _ => by
      apply allocStep_forall_clips config (totalAvailableDuration shuffled) e video s _ hs
      intro hm
      constructor
      · exact mul_nonneg he.1 (le_of_lt hm)
      · have h1 : e.rand * (video.Duration -
            clipDurationFor config (totalAvailableDuration shuffled) s.remainingDuration video
              - 1) <
          video.Duration -
            clipDurationFor config (totalAvailableDuration shuffled) s.remainingDuration video
              - 1 :=
          mul_lt_of_lt_one_left hm he.2
        show e.rand * (video.Duration -
            clipDurationFor config (totalAvailableDuration shuffled) s.remainingDuration video
              - 1) +
          clipDurationFor config (totalAvailableDuration shuffled) s.remainingDuration video ≤
            video.Duration
        linarith)
    shuffled 0 (initState config) (by simp [initState])
  exact key.1

theorem C1_trim_window_bounds_witness :
    (∀ i, 0 ≤ (envOk (1/2) i).rand ∧ (envOk (1/2) i).rand < 1) ∧
    ∀ c ∈ (allocate ⟨5, 60, 5, 10⟩ (envOk (1/2)) [videoA, videoB]).tempClips,
      0 ≤ c.startTime ∧ c.startTime + c.clipDuration ≤ c.video.Duration :=
  ⟨fun _ => by norm_num [envOk],
   C1_trim_window_bounds ⟨5, 60, 5, 10⟩ (envOk (1/2)) [videoA, videoB]
     (fun _ => by norm_num [envOk])⟩

/-! ## C2: the minimum clip duration -/

/-- C2 fails on the code: with target 3 and minimum 5 (both positive) the ordering
`[A:30, B:40]` passes the pre-check (`68 ≥ 3`) and gets the single clip `(A, 13, 3)`: the floor
raises the share `3 * 29 / 68` to 5, then `3 - 5 < 5` sets `clipDuration = remainingDuration = 3`,
below the minimum 5, and the attempt writes its output with that clip. -/
theorem C2_clip_below_minimum :
    0 < cfgShortTarget.TargetDuration ∧ 0 < cfgShortTarget.MinDuration ∧
    (allocate cfgShortTarget (envOk (1/2)) [videoA, videoB]).fileList = [⟨videoA, 13, 3⟩] ∧
    ¬ (∀ c ∈ (allocate cfgShortTarget (envOk (1/2)) [videoA, videoB]).fileList,
        cfgShortTarget.MinDuration ≤ c.clipDuration) ∧
    (attemptOn cfgShortTarget aenvOk [videoA, videoB]).isOutput = true := by
  have h : (allocate cfgShortTarget (envOk (1/2)) [videoA, videoB]).fileList =
      [⟨videoA, 13, 3⟩] := by
    norm_num [allocate, allocLoop, allocStep, clipDurationFor, initState, envOk,
      totalAvailableDuration, videoA, videoB, cfgShortTarget]
  have ht : (allocate cfgShortTarget (envOk (1/2)) [videoA, videoB]).totalDuration = 3 := by
    norm_num [allocate, allocLoop, allocStep, clipDurationFor, initState, envOk,
      totalAvailableDuration, videoA, videoB, cfgShortTarget]
  refine ⟨by norm_num [cfgShortTarget], by norm_num [cfgShortTarget], h, ?_, ?_⟩
  · rw [h]
    norm_num [cfgShortTarget]
  · unfold attemptOn
    simp only [aenvOk, ht]
    norm_num [totalAvailableDuration, videoA, videoB, cfgShortTarget, AttemptResult.isOutput]

/-! ## Shared lemmas on the float64 allocation loop -/

theorem roundF64_zero : roundF64 0 = 0 := by
  simp [roundF64]

theorem fsub_self (x : ℚ) : fsub x x = 0 := by
  unfold fsub
  rw [sub_self]
  exact roundF64_zero

/-- The clip duration chosen in `float64` is the whole remainder, or it is at least the minimum
and leaves at least the minimum. -/
theorem clipDurationForF64_cases (config : Config) (tot rem : ℚ) (video : VideoInfo) :
    (clipDurationForF64 config tot rem video = rem ∨
      (config.MinDuration ≤ clipDurationForF64 config tot rem video ∧
        config.MinDuration ≤ fsub rem (clipDurationForF64 config tot rem video))) := by
  unfold clipDurationForF64
  simp only
  split_ifs with h1 h2 h2
  · exact Or.inl rfl
  · exact Or.inr ⟨le_refl _, not_lt.mp h2⟩
  · exact Or.inl rfl
  · exact Or.inr ⟨not_lt.mp h1, not_lt.mp h2⟩

/-- The shape of the state after one loop body in `float64`: unchanged, one more trim request,
or one more request that also reached the list file and was charged to the budget. -/
theorem allocStepF64_cases (config : Config) (tot : ℚ) (e : ClipEnv) (video : VideoInfo)
    (s : AllocState) :
    allocStepF64 config tot e video s = s ∨
    (0 < fsub (fsub video.Duration
        (clipDurationForF64 config tot s.remainingDuration video)) 1 ∧
      (allocStepF64 config tot e video s =
          { s with tempClips := s.tempClips ++
              [⟨video, fmul e.rand (fsub (fsub video.Duration
                (clipDurationForF64 config tot s.remainingDuration video)) 1),
                clipDurationForF64 config tot s.remainingDuration video⟩] } ∨
        allocStepF64 config tot e video s =
          { remainingDuration :=
              fsub s.remainingDuration
                (clipDurationForF64 config tot s.remainingDuration video)
            totalDuration :=
              fadd s.totalDuration (clipDurationForF64 config tot s.remainingDuration video)
            tempClips := s.tempClips ++
              [⟨video, fmul e.rand (fsub (fsub video.Duration
                (clipDurationForF64 config tot s.remainingDuration video)) 1),
                clipDurationForF64 config tot s.remainingDuration video⟩]
            fileList := s.fileList ++
              [⟨video, fmul e.rand (fsub (fsub video.Duration
                (clipDurationForF64 config tot s.remainingDuration video)) 1),
                clipDurationForF64 config tot s.remainingDuration video⟩] })) := by
  unfold allocStepF64
  simp only
  split_ifs with h1 h2 h3 h4
  · exact Or.inl rfl
  · exact Or.inl rfl
  · exact Or.inr ⟨not_le.mp h1, Or.inl rfl⟩
  · exact Or.inr ⟨not_le.mp h1, Or.inl rfl⟩
  · exact Or.inr ⟨not_le.mp h1, Or.inr rfl⟩

/-- Invariants of the `float64` loop: what the body preserves while budget is left, the loop
preserves. -/
theorem allocLoopF64_invariant (config : Config) (tot : ℚ) (env : Nat → ClipEnv)
    (I : AllocState → Prop)
    (hstep : ∀ e video s, I s → 0 < s.remainingDuration →
      I (allocStepF64 config tot e video s)) :
    ∀ (vs : List VideoInfo) (i : Nat) (s : AllocState), I s →
      I (allocLoopF64 config tot env i vs s) := by
  intro vs
  induction vs with
  | nil => intro i s hs; simpa [allocLoopF64] using hs
  | cons video rest ih =>
    intro i s hs
    unfold allocLoopF64
    split_ifs with h
    · exact hs
    · exact ih (i + 1) _ (hstep (env i) video s hs (not_le.mp h))

theorem budgetF64_step (config : Config) (tot : ℚ) (hM : 0 < config.MinDuration)
    (e : ClipEnv) (video : VideoInfo) (s : AllocState)
    (hs : BudgetF64 config s) :
    BudgetF64 config (allocStepF64 config tot e video s) := by
  obtain ⟨h0, h1, h2⟩ := hs
  rcases allocStepF64_cases config tot e video s with h | ⟨_, h | h⟩
  · rw [h]; exact ⟨h0, h1, h2⟩
  · rw [h]; exact ⟨h0, h1, h2⟩
  · rw [h]
    have hsum : fadd s.totalDuration
        (clipDurationForF64 config tot s.remainingDuration video) =
        ((s.fileList ++ [(⟨video, fmul e.rand (fsub (fsub video.Duration
          (clipDurationForF64 config tot s.remainingDuration video)) 1),
          clipDurationForF64 config tot s.remainingDuration video⟩ : Clip)]).map
            Clip.clipDuration).foldl fadd 0 := by
      rw [List.map_append, List.foldl_append, ← h2]
      rfl
    rcases clipDurationForF64_cases config tot s.remainingDuration video with hc | ⟨_, hc⟩
    · refine ⟨?_, ?_, hsum⟩
      · show 0 ≤ fsub s.remainingDuration
          (clipDurationForF64 config tot s.remainingDuration video)
        rw [hc, fsub_self]
      · intro _
        left
        show fsub s.remainingDuration
          (clipDurationForF64 config tot s.remainingDuration video) = 0
        rw [hc, fsub_self]
    · exact ⟨le_trans (le_of_lt hM) hc, fun _ => Or.inr hc, hsum⟩

theorem budgetF64_loop (config : Config) (tot : ℚ) (env : Nat → ClipEnv)
    (hT : 0 < config.TargetDuration) (hM : 0 < config.MinDuration)
    (vs : List VideoInfo) :
    BudgetF64 config (allocLoopF64 config tot env 0 vs (initState config)) :=
  allocLoopF64_invariant config tot env (BudgetF64 config)
    (fun e video s hs _ => budgetF64_step config tot hM e video s hs)
    vs 0 (initState config)
    ⟨le_of_lt hT, fun h => Or.inr h, by simp [initState]⟩

/-- An attempt that reaches the concatenation ran the `float64` allocation loop and passed the
sufficiency check. -/
theorem attemptOnF64_passes (config : Config) (aenv : AttemptEnv) (shuffled : List VideoInfo)
    (s : AllocState)
    (h : attemptOnF64 config aenv shuffled = .output s ∨
      attemptOnF64 config aenv shuffled = .concatError s) :
    s = allocateF64 config aenv.clip shuffled ∧
    config.TargetDuration ≤ (allocateF64 config aenv.clip shuffled).totalDuration := by
  unfold attemptOnF64 at h
  simp only at h
  split_ifs at h with a1 a2 a3 a4
  · simp at h
  · simp at h
  · simp at h
  · rcases h with h | h
    · simp at h
    · simp only [AttemptResult.concatError.injEq] at h
      exact ⟨h.symm, not_lt.mp a3⟩
  · rcases h with h | h
    · simp only [AttemptResult.output.injEq] at h
      exact ⟨h.symm, not_lt.mp a3⟩
    · simp at h

/-! ## C10: the budget of the allocation loop -/

/-- C10 as stated fails, in two ways.  With target 3 and minimum 5 and a failed trim of the
first video, the remaining duration after the first step of the loop is 3, neither `0` nor
`≥ 5`.  With target 22 and minimum 5 the ordering `[12, 13, 25]` gets the `float64` clips
`5.148936170212766`, `5.617021276595744` and `11.234042553191493`: the loop ends with
`remainingDuration = 0` and `totalDuration = 22.000000000000004`, which exceeds the target, is
not `TargetDuration - remainingDuration`, and the attempt writes its output although the clips
do not sum to exactly the target. -/
theorem C10_counterexample :
    (0 < cfgShortTarget.TargetDuration ∧ 0 < cfgShortTarget.MinDuration ∧
      (allocLoopF64 cfgShortTarget (totalAvailableDurationF64 [videoA, videoB]) envCutFails 0
        ([videoA, videoB].take 1) (initState cfgShortTarget)).remainingDuration = 3 ∧
      ¬ ((allocLoopF64 cfgShortTarget (totalAvailableDurationF64 [videoA, videoB])
            envCutFails 0 ([videoA, videoB].take 1)
            (initState cfgShortTarget)).remainingDuration = 0 ∨
        cfgShortTarget.MinDuration ≤
          (allocLoopF64 cfgShortTarget (totalAvailableDurationF64 [videoA, videoB])
            envCutFails 0 ([videoA, videoB].take 1)
            (initState cfgShortTarget)).remainingDuration)) ∧
    (0 < (cfgTarget 22).TargetDuration ∧ 0 < (cfgTarget 22).MinDuration ∧
      (cfgTarget 22).MinDuration ≤ (cfgTarget 22).TargetDuration ∧
      (allocateF64 (cfgTarget 22) aenvOk.clip [video12, video13, video25]).remainingDuration
        = 0 ∧
      (allocateF64 (cfgTarget 22) aenvOk.clip [video12, video13, video25]).totalDuration
        = 6192449487634433 / 281474976710656 ∧
      ¬ ((allocateF64 (cfgTarget 22) aenvOk.clip [video12, video13, video25]).totalDuration
        ≤ (cfgTarget 22).TargetDuration) ∧
      ¬ ((allocateF64 (cfgTarget 22) aenvOk.clip [video12, video13, video25]).totalDuration
        = (cfgTarget 22).TargetDuration -
          (allocateF64 (cfgTarget 22) aenvOk.clip
            [video12, video13, video25]).remainingDuration) ∧
      (attemptOnF64 (cfgTarget 22) aenvOk [video12, video13, video25]).isOutput = true ∧
      ¬ (((allocateF64 (cfgTarget 22) aenvOk.clip [video12, video13, video25]).fileList.map
        Clip.clipDuration).sum = (cfgTarget 22).TargetDuration)) := by
  decide!

/-- C10 (amended): for positive target and minimum, after any number `k` of steps of the
allocation loop on an ordering, in `float64` and whatever the random draws and the outcomes of
the external steps: `remainingDuration` is not negative and, if `MinDuration ≤ TargetDuration`,
it is `0` or at least `MinDuration`; `totalDuration` is the `float64` sum, in order, of the clips
written to the list file; and an attempt that passes the sufficiency check (ending in the
concatenation, failed or not) has `totalDuration ≥ TargetDuration`. -/
theorem C10_budget (config : Config) (env : Nat → ClipEnv) (shuffled : List VideoInfo)
    (k : Nat) (hT : 0 < config.TargetDuration) (hM : 0 < config.MinDuration) :
    0 ≤ (allocLoopF64 config (totalAvailableDurationF64 shuffled) env 0 (shuffled.take k)
      (initState config)).remainingDuration ∧
    (config.MinDuration ≤ config.TargetDuration →
      (allocLoopF64 config (totalAvailableDurationF64 shuffled) env 0 (shuffled.take k)
          (initState config)).remainingDuration = 0 ∨
        config.MinDuration ≤
          (allocLoopF64 config (totalAvailableDurationF64 shuffled) env 0 (shuffled.take k)
            (initState config)).remainingDuration) ∧
    (allocLoopF64 config (totalAvailableDurationF64 shuffled) env 0 (shuffled.take k)
        (initState config)).totalDuration =
      ((allocLoopF64 config (totalAvailableDurationF64 shuffled) env 0 (shuffled.take k)
        (initState config)).fileList.map Clip.clipDuration).foldl fadd 0 ∧
    (∀ (aenv : AttemptEnv) (s : AllocState),
      (attemptOnF64 config aenv shuffled = .output s ∨
        attemptOnF64 config aenv shuffled = .concatError s) →
      s = allocateF64 config aenv.clip shuffled ∧
      config.TargetDuration ≤ s.totalDuration) := by
  obtain ⟨h0, h1, h2⟩ :=
    budgetF64_loop config (totalAvailableDurationF64 shuffled) env hT hM (shuffled.take k)
  refine ⟨h0, h1, h2, ?_⟩
  intro aenv s hs
  obtain ⟨g1, g2⟩ := attemptOnF64_passes config aenv shuffled s hs
  exact ⟨g1, by rw [g1]; exact g2⟩

theorem C10_budget_witness :
    (0 < (cfgTarget 22).TargetDuration ∧ 0 < (cfgTarget 22).MinDuration ∧
      (cfgTarget 22).MinDuration ≤ (cfgTarget 22).TargetDuration) ∧
    0 ≤ (allocLoopF64 (cfgTarget 22) (totalAvailableDurationF64 [video12, video13, video25])
      (envOk (1/2)) 0 ([video12, video13, video25].take 2)
      (initState (cfgTarget 22))).remainingDuration ∧
    ((allocLoopF64 (cfgTarget 22) (totalAvailableDurationF64 [video12, video13, video25])
          (envOk (1/2)) 0 ([video12, video13, video25].take 2)
          (initState (cfgTarget 22))).remainingDuration = 0 ∨
      (cfgTarget 22).MinDuration ≤
        (allocLoopF64 (cfgTarget 22) (totalAvailableDurationF64 [video12, video13, video25])
          (envOk (1/2)) 0 ([video12, video13, video25].take 2)
          (initState (cfgTarget 22))).remainingDuration) ∧
    (allocLoopF64 (cfgTarget 22) (totalAvailableDurationF64 [video12, video13, video25])
        (envOk (1/2)) 0 ([video12, video13, video25].take 2)
        (initState (cfgTarget 22))).remainingDuration = 1581050933013047 / 140737488355328 :=
  ⟨by decide!,
   (C10_budget (cfgTarget 22) (envOk (1/2)) [video12, video13, video25] 2
     (by decide!) (by decide!)).1,
   (C10_budget (cfgTarget 22) (envOk (1/2)) [video12, video13, video25] 2
     (by decide!) (by decide!)).2.1 (by decide!),
   by decide!⟩

/-! ## C3: the available total equal to the target -/

/-- C3 as stated fails: `[X:33, Y:33]` has available total `32 + 32 = 64`, equal to the target
64; the pre-check lets the attempt through, but each share is `64 * (32 / 64) = 32` (no
operation rounds), both windows are `maxStartTime = 33 - 32 - 1 = 0`, no clip is cut, the
realized total is `0 < 64` and the attempt is skipped by the sufficiency check. -/
theorem C3_counterexample :
    2 ≤ [videoX, videoY].length ∧
    0 < cfgBoundary.TargetDuration ∧ 0 < cfgBoundary.MinDuration ∧
    totalAvailableDurationF64 [videoX, videoY] = cfgBoundary.TargetDuration ∧
    (allocateF64 cfgBoundary aenvOk.clip [videoX, videoY]).totalDuration = 0 ∧
    ¬ (cfgBoundary.TargetDuration ≤
      (allocateF64 cfgBoundary aenvOk.clip [videoX, videoY]).totalDuration) ∧
    (attemptOnF64 cfgBoundary aenvOk [videoX, videoY]).isOutput = false := by
  decide!

/-- C3 (amended): for an ordering whose available total, as the program computes it, equals
the target, the attempt is not skipped by the pre-check; once its list file exists it runs the
allocation loop and then either is skipped by the sufficiency check, with a realized total
below the target, or goes on to the concatenation, with a realized total of at least the
target. -/
theorem C3_boundary (config : Config) (aenv : AttemptEnv) (shuffled : List VideoInfo)
    (htot : totalAvailableDurationF64 shuffled = config.TargetDuration)
    (hok : aenv.tempFileOk = true) :
    ¬ (totalAvailableDurationF64 shuffled < config.TargetDuration) ∧
    attemptOnF64 config aenv shuffled ≠ .skippedAvailable ∧
    ((attemptOnF64 config aenv shuffled =
          .skippedTotal (allocateF64 config aenv.clip shuffled) ∧
        (allocateF64 config aenv.clip shuffled).totalDuration < config.TargetDuration) ∨
      ((attemptOnF64 config aenv shuffled =
            .concatError (allocateF64 config aenv.clip shuffled) ∨
          attemptOnF64 config aenv shuffled =
            .output (allocateF64 config aenv.clip shuffled)) ∧
        config.TargetDuration ≤ (allocateF64 config aenv.clip shuffled).totalDuration)) := by
  have hpre : ¬ (totalAvailableDurationF64 shuffled < config.TargetDuration) := by
    rw [htot]; exact lt_irrefl _
  have hres : (attemptOnF64 config aenv shuffled =
          .skippedTotal (allocateF64 config aenv.clip shuffled) ∧
        (allocateF64 config aenv.clip shuffled).totalDuration < config.TargetDuration) ∨
      ((attemptOnF64 config aenv shuffled =
            .concatError (allocateF64 config aenv.clip shuffled) ∨
          attemptOnF64 config aenv shuffled =
            .output (allocateF64 config aenv.clip shuffled)) ∧
        config.TargetDuration ≤ (allocateF64 config aenv.clip shuffled).totalDuration) := by
    unfold attemptOnF64
    simp only
    rw [if_neg (by simp [hok]), if_neg hpre]
    split_ifs with a3 a4
    · exact Or.inl ⟨rfl, a3⟩
    · exact Or.inr ⟨Or.inl rfl, not_lt.mp a3⟩
    · exact Or.inr ⟨Or.inr rfl, not_lt.mp a3⟩
  refine ⟨hpre, ?_, hres⟩
  rcases hres with ⟨h, _⟩ | ⟨h | h, _⟩ <;> rw [h] <;> simp

/-- The amended C3 at `[X:33, Y:33]` with target 64, where the attempt is skipped, and at
`[17, 26.8]` with target 41.8, where `16 + 25.8` is 41.8 in `float64` and the attempt writes its
output. -/
theorem C3_boundary_witness :
    (totalAvailableDurationF64 [videoX, videoY] = cfgBoundary.TargetDuration ∧
      aenvOk.tempFileOk = true ∧
      totalAvailableDurationF64 [video17, video26_8] = (cfgTarget f41_8).TargetDuration) ∧
    attemptOnF64 cfgBoundary aenvOk [videoX, videoY] ≠ .skippedAvailable ∧
    (attemptOnF64 cfgBoundary aenvOk [videoX, videoY]).isOutput = false ∧
    attemptOnF64 (cfgTarget f41_8) aenvOk [video17, video26_8] ≠ .skippedAvailable ∧
    (attemptOnF64 (cfgTarget f41_8) aenvOk [video17, video26_8]).isOutput = true :=
  ⟨by decide!,
   (C3_boundary cfgBoundary aenvOk [videoX, videoY] (by decide!) rfl).2.1,
   by decide!,
   (C3_boundary (cfgTarget f41_8) aenvOk [video17, video26_8] (by decide!) rfl).2.1,
   by decide!⟩

/-! ## C4: orderings short of the target -/

theorem foldl_available (vs : List VideoInfo) (acc : ℚ) :
    vs.foldl (fun acc video => acc + (video.Duration - 1)) acc =
      acc + (vs.map (fun v => v.Duration - 1)).sum := by
  induction vs generalizing acc with
  | nil => simp
  | cons v rest ih => simp only [List.foldl_cons, List.map_cons, List.sum_cons]; rw [ih]; ring

theorem totalAvailableDuration_eq_sum (vs : List VideoInfo) :
    totalAvailableDuration vs = (vs.map (fun v => v.Duration - 1)).sum := by
  unfold totalAvailableDuration
  rw [foldl_available]
  ring

theorem sum_share_zero_or_ge (config : Config) (tot : ℚ) (hM : 0 < config.MinDuration)
    (vs : List VideoInfo) (hvs : ∀ v ∈ vs, config.MinDuration ≤ share config tot v) :
    (vs.map (share config tot)).sum = 0 ∨
      config.MinDuration ≤ (vs.map (share config tot)).sum := by
  cases vs with
  | nil => left; simp
  | cons w rest =>
    right
    have hw := hvs w (List.mem_cons_self _ _)
    have hrest : 0 ≤ (rest.map (share config tot)).sum := by
      apply List.sum_nonneg
      intro x hx
      obtain ⟨u, hu, rfl⟩ := List.mem_map.mp hx
      exact le_trans (le_of_lt hM) (hvs u (List.mem_cons_of_mem _ hu))
    simp only [List.map_cons, List.sum_cons]
    linarith

theorem sum_share (config : Config) (tot : ℚ) (vs : List VideoInfo) :
    (vs.map (share config tot)).sum =
      config.TargetDuration * ((vs.map (fun v => v.Duration - 1)).sum / tot) := by
  induction vs with
  | nil => simp
  | cons v rest ih =>
    simp only [List.map_cons, List.sum_cons]
    rw [ih]
    unfold share
    ring

/-! ## C5: proportional allocation -/

theorem exact64_eq (x : ℚ) (h : exact64 x = true) : roundF64 x = x := by
  unfold exact64 at h
  exact of_decide_eq_true h

/-- Started with exactly the shares of the videos still to come as remaining budget, with every
external step succeeding and no operation rounding, the `float64` loop gives each video its
share. -/
theorem allocLoopF64_proportional (config : Config) (tot : ℚ) (env : Nat → ClipEnv)
    (hM : 0 < config.MinDuration)
    (hok : ∀ i, (env i).createTempOk = true ∧ (env i).cutVideoOk = true ∧
      (env i).absOk = true) :
    ∀ (vs : List VideoInfo) (i : Nat) (s : AllocState),
      (∀ v ∈ vs, config.MinDuration ≤ share config tot v ∧
        share config tot v < v.Duration - 1) →
      s.remainingDuration = (vs.map (share config tot)).sum →
      noRounding config tot s.totalDuration vs = true →
      (allocLoopF64 config tot env i vs s).fileList.map (fun c => (c.video, c.clipDuration)) =
        s.fileList.map (fun c => (c.video, c.clipDuration)) ++
          vs.map (fun v => (v, share config tot v)) ∧
      (s.tempClips = s.fileList →
        (allocLoopF64 config tot env i vs s).tempClips =
          (allocLoopF64 config tot env i vs s).fileList) ∧
      (allocLoopF64 config tot env i vs s).totalDuration =
        s.totalDuration + (vs.map (share config tot)).sum ∧
      (allocLoopF64 config tot env i vs s).remainingDuration = 0 := by
  intro vs
  induction vs with
  | nil =>
    intro i s _ hrem _
    simp only [allocLoopF64, List.map_nil, List.append_nil, List.sum_nil, add_zero, true_and]
    exact ⟨fun h => h, by simpa using hrem⟩
  | cons v rest ih =>
    intro i s hvs hrem hx
    have hv := hvs v (List.mem_cons_self _ _)
    have hrest : ∀ w ∈ rest, config.MinDuration ≤ share config tot w ∧
        share config tot w < w.Duration - 1 :=
      fun w hw => hvs w (List.mem_cons_of_mem _ hw)
    have hsum := sum_share_zero_or_ge config tot hM rest (fun w hw => (hrest w hw).1)
    simp only [List.map_cons, List.sum_cons] at hrem
    simp only [noRounding, Bool.and_eq_true] at hx
    obtain ⟨⟨⟨⟨⟨⟨⟨x1, x2⟩, x3⟩, x4⟩, x5⟩, x6⟩, x7⟩, x8⟩ := hx
    have e1 : fsub v.Duration 1 = v.Duration - 1 := exact64_eq _ x1
    have e2 : fdiv (v.Duration - 1) tot = (v.Duration - 1) / tot := exact64_eq _ x2
    have e3 : fmul config.TargetDuration ((v.Duration - 1) / tot) = share config tot v :=
      exact64_eq _ x3
    have hdiff : s.remainingDuration - share config tot v =
        (rest.map (share config tot)).sum := by rw [hrem]; ring
    have e4 : fsub s.remainingDuration (share config tot v) =
        (rest.map (share config tot)).sum := by
      unfold fsub
      rw [hdiff]
      exact exact64_eq _ x4
    have e5 : fsub v.Duration (share config tot v) = v.Duration - share config tot v :=
      exact64_eq _ x5
    have e6 : fsub (v.Duration - share config tot v) 1 =
        v.Duration - share config tot v - 1 := exact64_eq _ x6
    have e7 : fadd s.totalDuration (share config tot v) =
        s.totalDuration + share config tot v := exact64_eq _ x7
    have hclip : clipDurationForF64 config tot s.remainingDuration v =
        share config tot v := by
      unfold clipDurationForF64
      simp only [e1, e2, e3]
      rw [if_neg (not_lt.mpr hv.1), e4]
      rcases hsum with h0 | h0
      · rw [if_pos (by rw [h0]; exact hM), hrem, h0, add_zero]
      · rw [if_neg (not_lt.mpr h0)]
    have hpos : ¬ s.remainingDuration ≤ 0 := by
      have h0 : 0 ≤ (rest.map (share config tot)).sum := by
        rcases hsum with h | h
        · rw [h]
        · exact le_trans (le_of_lt hM) h
      have := hv.1
      rw [hrem]
      intro hneg
      linarith
    have hwin : ¬ v.Duration - share config tot v - 1 ≤ 0 := by
      have := hv.2
      intro hneg
      linarith
    obtain ⟨o1, o2, o3⟩ := hok i
    unfold allocLoopF64
    rw [if_neg hpos]
    have hstep : allocStepF64 config tot (env i) v s =
        { remainingDuration := (rest.map (share config tot)).sum
          totalDuration := s.totalDuration + share config tot v
          tempClips := s.tempClips ++
            [⟨v, fmul (env i).rand (v.Duration - share config tot v - 1),
              share config tot v⟩]
          fileList := s.fileList ++
            [⟨v, fmul (env i).rand (v.Duration - share config tot v - 1),
              share config tot v⟩] } := by
      unfold allocStepF64
      simp only [hclip, e5, e6, e7, e4, if_neg hwin, o1, o2, o3]
      simp
    obtain ⟨r1, r2, r3, r4⟩ := ih (i + 1) (allocStepF64 config tot (env i) v s) hrest
      (by rw [hstep]) (by rw [hstep]; exact x8)
    refine ⟨?_, ?_, ?_, r4⟩
    · rw [r1, hstep]; simp
    · intro hsame
      apply r2
      rw [hstep, hsame]
    · rw [r3, hstep]; simp only [List.map_cons, List.sum_cons]; ring

/-- C5 as stated fails: the ordering `[59, 9, 7]` with target 60 and minimum 5 meets every
hypothesis (durations above 1, available total `72 > 60`, shares `48.33…`, `6.66…` and `5`, all
at least 5, every external step succeeding), but in `float64` the first clip is
`48.333333333333336`, the remainder `11.666666666666664` less the second share
`6.666666666666666` is `4.999999999999998 < 5`, so the second video is given the whole
remainder, has no window and is dropped; the list file holds the first and the third video
only, the realized total `53.333333333333336` is below the target and no output is written. -/
theorem C5_counterexample :
    (∀ v ∈ [video59, video9, video7], 1 < v.Duration) ∧
    0 < (cfgTarget 60).TargetDuration ∧
    (cfgTarget 60).TargetDuration < totalAvailableDurationF64 [video59, video9, video7] ∧
    0 < (cfgTarget 60).MinDuration ∧
    (∀ v ∈ [video59, video9, video7], (cfgTarget 60).MinDuration ≤
      (cfgTarget 60).TargetDuration * (v.Duration - 1) /
        totalAvailableDurationF64 [video59, video9, video7]) ∧
    (allocateF64 (cfgTarget 60) (envOk (1/2)) [video59, video9, video7]).fileList.map
        (fun c => (c.video, c.clipDuration)) =
      [(video59, 6802311937174187 / 140737488355328), (video7, 5)] ∧
    (allocateF64 (cfgTarget 60) (envOk (1/2)) [video59, video9, video7]).totalDuration =
      7505999378950827 / 140737488355328 ∧
    ¬ ((allocateF64 (cfgTarget 60) (envOk (1/2)) [video59, video9, video7]).totalDuration =
      (cfgTarget 60).TargetDuration) ∧
    (attemptOnF64 (cfgTarget 60) aenvOk [video59, video9, video7]).isOutput = false := by
  decide!

/-- C5 (amended): for an ordering in which every duration exceeds 1, with
`totalAvailable > TargetDuration > 0` and every proportional share
`TargetDuration * (Duration - 1) / totalAvailable ≥ MinDuration > 0`, with every external step
succeeding, and when no `float64` operation on the durations rounds (the sum of the pre-check
and, for every video, the available duration, the ratio, the share, the remainder, the window
and the total), the list file holds every video of the ordering, in order, each with `clipDuration`
equal to its share; every window `Duration - clipDuration - 1` is positive; and the realized
total equals `TargetDuration`. -/
theorem C5_proportional_allocation (config : Config) (env : Nat → ClipEnv)
    (shuffled : List VideoInfo)
    (hd : ∀ v ∈ shuffled, 1 < v.Duration)
    (hT : 0 < config.TargetDuration)
    (htot : config.TargetDuration < totalAvailableDuration shuffled)
    (hM : 0 < config.MinDuration)
    (hshare : ∀ v ∈ shuffled, config.MinDuration ≤
      config.TargetDuration * (v.Duration - 1) / totalAvailableDuration shuffled)
    (hok : ∀ i, (env i).createTempOk = true ∧ (env i).cutVideoOk = true ∧
      (env i).absOk = true)
    (hxt : totalAvailableDurationF64 shuffled = totalAvailableDuration shuffled)
    (hx : noRounding config (totalAvailableDuration shuffled) 0 shuffled = true) :
    (allocateF64 config env shuffled).fileList.map (fun c => (c.video, c.clipDuration)) =
      shuffled.map (fun v =>
        (v, config.TargetDuration * (v.Duration - 1) / totalAvailableDuration shuffled)) ∧
    (allocateF64 config env shuffled).tempClips = (allocateF64 config env shuffled).fileList ∧
    (∀ c ∈ (allocateF64 config env shuffled).fileList,
      0 < c.video.Duration - c.clipDuration - 1) ∧
    (allocateF64 config env shuffled).totalDuration = config.TargetDuration := by
  have htpos : 0 < totalAvailableDuration shuffled := lt_trans hT htot
  have hform : ∀ v : VideoInfo,
      config.TargetDuration * (v.Duration - 1) / totalAvailableDuration shuffled =
        share config (totalAvailableDuration shuffled) v := by
    intro v; unfold share; rw [mul_div_assoc]
  have hvs : ∀ v ∈ shuffled,
      config.MinDuration ≤ share config (totalAvailableDuration shuffled) v ∧
      share config (totalAvailableDuration shuffled) v < v.Duration - 1 := by
    intro v hv
    refine ⟨by rw [← hform]; exact hshare v hv, ?_⟩
    have h1 : 0 < v.Duration - 1 := by linarith [hd v hv]
    unfold share
    rw [← mul_div_assoc, div_lt_iff₀ htpos, mul_comm]
    exact mul_lt_mul_of_pos_left htot h1
  have hsumT : (shuffled.map (share config (totalAvailableDuration shuffled))).sum =
      config.TargetDuration := by
    rw [sum_share, ← totalAvailableDuration_eq_sum, div_self (ne_of_gt htpos), mul_one]
  obtain ⟨r1, r2, r3, _⟩ := allocLoopF64_proportional config (totalAvailableDuration shuffled)
    env hM hok shuffled 0 (initState config) hvs (by rw [hsumT]; rfl) hx
  have hlist : (allocateF64 config env shuffled).fileList.map
      (fun c => (c.video, c.clipDuration)) =
      shuffled.map (fun v =>
        (v, config.TargetDuration * (v.Duration - 1) / totalAvailableDuration shuffled)) := by
    unfold allocateF64
    rw [hxt, r1]
    simp only [initState, List.map_nil, List.nil_append]
    apply List.map_congr_left
    intro v _
    rw [hform]
  refine ⟨hlist, ?_, ?_, ?_⟩
  · unfold allocateF64
    rw [hxt]
    exact r2 rfl
  · intro c hc
    have hmem : (c.video, c.clipDuration) ∈
        (allocateF64 config env shuffled).fileList.map
          (fun c => (c.video, c.clipDuration)) :=
      List.mem_map.mpr ⟨c, hc, rfl⟩
    rw [hlist] at hmem
    obtain ⟨v, hv, heq⟩ := List.mem_map.mp hmem
    have h1 : c.video = v := (Prod.mk.injEq _ _ _ _ ▸ heq.symm).1
    have h2 : c.clipDuration =
        config.TargetDuration * (v.Duration - 1) / totalAvailableDuration shuffled :=
      (Prod.mk.injEq _ _ _ _ ▸ heq.symm).2
    rw [h2, h1, hform]
    linarith [(hvs v hv).2]
  · unfold allocateF64
    rw [hxt, r3, hsumT]
    simp [initState]

/-- The amended C5 at `[17, 49]` with target 32 and minimum 5: available total 64, ratios
`1/4` and `3/4`, shares 8 and 24, in either order. -/
theorem C5_proportional_allocation_witness :
    ((∀ v ∈ [video17, video49], 1 < v.Duration) ∧ 0 < (cfgTarget 32).TargetDuration ∧
      (cfgTarget 32).TargetDuration < totalAvailableDuration [video17, video49] ∧
      0 < (cfgTarget 32).MinDuration ∧
      (∀ v ∈ [video17, video49], (cfgTarget 32).MinDuration ≤
        (cfgTarget 32).TargetDuration * (v.Duration - 1) /
          totalAvailableDuration [video17, video49]) ∧
      totalAvailableDurationF64 [video17, video49] =
        totalAvailableDuration [video17, video49] ∧
      noRounding (cfgTarget 32) (totalAvailableDuration [video17, video49]) 0
        [video17, video49] = true) ∧
    (allocateF64 (cfgTarget 32) (envOk (1/2)) [video17, video49]).fileList.map
        (fun c => (c.video, c.clipDuration)) = [(video17, 8), (video49, 24)] ∧
    (allocateF64 (cfgTarget 32) (envOk (1/2)) [video17, video49]).totalDuration = 32 ∧
    (allocateF64 (cfgTarget 32) (envOk (1/2)) [video49, video17]).fileList.map
        (fun c => (c.video, c.clipDuration)) = [(video49, 24), (video17, 8)] ∧
    (allocateF64 (cfgTarget 32) (envOk (1/2)) [video49, video17]).totalDuration = 32 := by
  have hyp : (∀ v ∈ [video17, video49], 1 < v.Duration) ∧ 0 < (cfgTarget 32).TargetDuration ∧
      (cfgTarget 32).TargetDuration < totalAvailableDuration [video17, video49] ∧
      0 < (cfgTarget 32).MinDuration ∧
      (∀ v ∈ [video17, video49], (cfgTarget 32).MinDuration ≤
        (cfgTarget 32).TargetDuration * (v.Duration - 1) /
          totalAvailableDuration [video17, video49]) ∧
      totalAvailableDurationF64 [video17, video49] =
        totalAvailableDuration [video17, video49] ∧
      noRounding (cfgTarget 32) (totalAvailableDuration [video17, video49]) 0
        [video17, video49] = true := by
    decide!
  have hyp2 : (∀ v ∈ [video49, video17], 1 < v.Duration) ∧
      (cfgTarget 32).TargetDuration < totalAvailableDuration [video49, video17] ∧
      (∀ v ∈ [video49, video17], (cfgTarget 32).MinDuration ≤
        (cfgTarget 32).TargetDuration * (v.Duration - 1) /
          totalAvailableDuration [video49, video17]) ∧
      totalAvailableDurationF64 [video49, video17] =
        totalAvailableDuration [video49, video17] ∧
      noRounding (cfgTarget 32) (totalAvailableDuration [video49, video17]) 0
        [video49, video17] = true := by
    decide!
  have h := C5_proportional_allocation (cfgTarget 32) (envOk (1/2)) [video17, video49]
    hyp.1 hyp.2.1 hyp.2.2.1 hyp.2.2.2.1 hyp.2.2.2.2.1 (fun _ => ⟨rfl, rfl, rfl⟩)
    hyp.2.2.2.2.2.1 hyp.2.2.2.2.2.2
  have h2 := C5_proportional_allocation (cfgTarget 32) (envOk (1/2)) [video49, video17]
    hyp2.1 hyp.2.1 hyp2.2.1 hyp.2.2.2.1 hyp2.2.2.1 (fun _ => ⟨rfl, rfl, rfl⟩)
    hyp2.2.2.2.1 hyp2.2.2.2.2
  refine ⟨hyp, ?_, ?_, ?_, ?_⟩
  · rw [h.1]; decide!
  · rw [h.2.2.2]; rfl
  · rw [h2.1]; decide!
  · rw [h2.2.2.2]; rfl

/-- The scenario of the specification in `float64`: `[A:30, B:40]` with target 60 and minimum 5
gets, in either order, both videos with the `float64` values next to `60 * 29 / 68` and
`60 * 39 / 68` (`25.588235294117645` and `34.411764705882355`, resp. `34.41176470588235` and
`25.588235294117652`) and a realized total of exactly 60. -/
theorem scenarioF64 :
    (allocateF64 cfgScenario (envOk (1/2)) [videoA, videoB]).fileList.map
        (fun c => (c.video, c.clipDuration)) =
      [(videoA, 3601223966739275 / 140737488355328),
        (videoB, 4843025334580405 / 140737488355328)] ∧
    (allocateF64 cfgScenario (envOk (1/2)) [videoA, videoB]).totalDuration = 60 ∧
    (allocateF64 cfgScenario (envOk (1/2)) [videoB, videoA]).fileList.map
        (fun c => (c.video, c.clipDuration)) =
      [(videoB, 1210756333645101 / 35184372088832),
        (videoA, 900305991684819 / 35184372088832)] ∧
    (allocateF64 cfgScenario (envOk (1/2)) [videoB, videoA]).totalDuration = 60 := by
  decide!

/-! ## C6 and C7: the number of attempts and of outputs -/

theorem factorial_eq_of_le (n : Nat) (hn : n ≤ 20) :
    factorial (n : Int) = (n.factorial : Int) := by
  interval_cases n <;> simp [factorial, wrapInt64, Nat.factorial]

theorem factorial_lt (n : Int) : factorial n < 2 ^ 63 := by
  rw [factorial]
  split_ifs with h
  · norm_num
  · unfold wrapInt64
    have := Int.emod_lt_of_pos (n * factorial (n - 1) + 2 ^ 63)
      (show (0 : Int) < 2 ^ 64 by norm_num)
    omega

theorem factorial_le_nat_factorial (n : Nat) :
    factorial (n : Int) ≤ (n.factorial : Int) := by
  by_cases hn : n ≤ 20
  · rw [factorial_eq_of_le n hn]
  · have h1 : Nat.factorial 21 ≤ n.factorial := Nat.factorial_le (by omega)
    have h2 : (2 : Int) ^ 63 ≤ (Nat.factorial 21 : Int) := by
      norm_num [Nat.factorial]
    have h3 := factorial_lt (n : Int)
    have h4 : (Nat.factorial 21 : Int) ≤ (n.factorial : Int) := by exact_mod_cast h1
    omega

/-- The loop of `main` never runs more often than `min (NumCombinations, n!)` times. -/
theorem numAttempts_le (numCombinations : Int) (n : Nat) (h0 : 0 ≤ numCombinations) :
    ((clampNumCombinations numCombinations n).toNat : Int) ≤
      min numCombinations (n.factorial : Int) := by
  have h1 := factorial_le_nat_factorial n
  have h2 : (0 : Int) ≤ (n.factorial : Int) := by positivity
  unfold clampNumCombinations
  simp only
  split_ifs with h
  · rw [le_min_iff]
    omega
  · rw [le_min_iff]
    omega

/-- C6: for a catalogue of `n ≥ 2` videos and `NumCombinations ≥ 0`, whatever the outcomes of
the shuffles, trims and concatenations, the run writes at most `min (NumCombinations, n!)`
output files (`n!` the mathematical factorial); the files have pairwise different indices (an
attempt index yields at most one file), each between 1 and that bound. -/
theorem C6_output_count_bound (config : Config) (env : RunEnv)
    (videoInfos : List VideoInfo) (hn : 2 ≤ videoInfos.length)
    (hnum : 0 ≤ config.NumCombinations) :
    ∃ outs, run config env videoInfos = some outs ∧
      (outs.length : Int) ≤ min config.NumCombinations (videoInfos.length.factorial : Int) ∧
      outs.Nodup ∧
      ∀ j ∈ outs, 1 ≤ j ∧
        (j : Int) ≤ min config.NumCombinations (videoInfos.length.factorial : Int) := by
  have hb := numAttempts_le config.NumCombinations videoInfos.length hnum
  have h0 : (0 : Int) ≤ min config.NumCombinations (videoInfos.length.factorial : Int) :=
    le_min hnum (by positivity)
  unfold run
  rw [if_neg (by omega)]
  simp only
  split_ifs with hmk
  · exact ⟨[], rfl, by simpa using h0, List.nodup_nil, by simp⟩
  · refine ⟨_, rfl, ?_, ?_, ?_⟩
    · have hlen : ((List.range (clampNumCombinations config.NumCombinations
            videoInfos.length).toNat).filter
          (fun i => (attempt config (env.attempt i) videoInfos).isOutput)).length ≤
          (clampNumCombinations config.NumCombinations videoInfos.length).toNat := by
        have := List.length_filter_le
          (fun i => (attempt config (env.attempt i) videoInfos).isOutput)
          (List.range (clampNumCombinations config.NumCombinations videoInfos.length).toNat)
        simpa using this
      simp only [List.length_map]
      have : ((((List.range (clampNumCombinations config.NumCombinations
            videoInfos.length).toNat).filter
          (fun i => (attempt config (env.attempt i) videoInfos).isOutput)).length : Nat) :
            Int) ≤
          ((clampNumCombinations config.NumCombinations videoInfos.length).toNat : Int) := by
        exact_mod_cast hlen
      exact le_trans this hb
    · apply List.Nodup.map
      · intro a b hab
        simpa using hab
      · exact (List.nodup_range _).filter _
    · intro j hj
      simp only [List.mem_map, List.mem_filter, List.mem_range] at hj
      obtain ⟨i, ⟨hi, _⟩, rfl⟩ := hj
      refine ⟨by omega, ?_⟩
      have : ((i + 1 : Nat) : Int) ≤
          ((clampNumCombinations config.NumCombinations videoInfos.length).toNat : Int) := by
        exact_mod_cast hi
      exact le_trans this hb

theorem C6_output_count_bound_witness :
    (2 ≤ [videoA, videoB].length ∧ 0 ≤ cfgScenario.NumCombinations) ∧
    ∃ outs, run cfgScenario ⟨true, fun _ => aenvOk⟩ [videoA, videoB] = some outs ∧
      (outs.length : Int) ≤
        min cfgScenario.NumCombinations ([videoA, videoB].length.factorial : Int) ∧
      outs.Nodup ∧
      ∀ j ∈ outs, 1 ≤ j ∧
        (j : Int) ≤ min cfgScenario.NumCombinations ([videoA, videoB].length.factorial : Int) :=
  ⟨⟨by simp, by norm_num [cfgScenario]⟩,
   C6_output_count_bound cfgScenario ⟨true, fun _ => aenvOk⟩ [videoA, videoB] (by simp)
    (by norm_num [cfgScenario])⟩

/-- C7 fails at 21 videos: on 64-bit integers `factorial 21` is
`21! - 3 * 2^64 = -4249290049419214848`, not `21!`; a request for 5 combinations is clamped to
that negative number and the loop runs 0 times, where `min (5, 21!) = 5`. -/
theorem C7_factorial_overflow :
    factorial 21 = -4249290049419214848 ∧
    (Nat.factorial 21 : Int) = 51090942171709440000 ∧
    clampNumCombinations 5 21 = -4249290049419214848 ∧
    numAttempts 5 21 = 0 ∧
    min (5 : Int) (Nat.factorial 21 : Int) = 5 := by
  have h20 : factorial 20 = 2432902008176640000 := by
    have := factorial_eq_of_le 20 (le_refl _)
    simpa [Nat.factorial] using this
  have h21 : factorial 21 = -4249290049419214848 := by
    rw [factorial, if_neg (by norm_num)]
    norm_num [h20, wrapInt64]
  have hf : (Nat.factorial 21 : Int) = 51090942171709440000 := by
    norm_num [Nat.factorial]
  have hc : clampNumCombinations 5 21 = -4249290049419214848 := by
    unfold clampNumCombinations
    simp only [Nat.cast_ofNat, h21]
    norm_num
  refine ⟨h21, hf, hc, ?_, ?_⟩
  · unfold numAttempts
    rw [hc]
    rfl
  · rw [hf]
    norm_num

/-! ## C8: a failed trim -/

theorem swap_perm {α : Type} (xs : List α) (i j : Nat) : (swap xs i j).Perm xs := by
  classical
  unfold swap
  split
  · rename_i a b hi hj
    obtain ⟨hi', ha⟩ := List.getElem?_eq_some.mp hi
    obtain ⟨hj', hb⟩ := List.getElem?_eq_some.mp hj
    have hca : ∀ c, a = c → 0 < List.count c xs := by
      intro c h; subst h
      exact List.count_pos_iff.mpr (ha ▸ List.getElem_mem hi')
    have hcb : ∀ c, b = c → 0 < List.count c xs := by
      intro c h; subst h
      exact List.count_pos_iff.mpr (hb ▸ List.getElem_mem hj')
    rw [List.perm_iff_count]
    intro c
    by_cases hij : i = j
    · subst hij
      rw [List.set_set, List.count_set _ _ _ _ hi', ha]
      have := hca c
      simp only [beq_iff_eq]
      split_ifs with h1
      · have := this h1; omega
      · omega
    · have hj2 : j < (xs.set i b).length := by simpa using hj'
      have h1 : (xs.set i b)[j] = b := by
        rw [List.getElem_set_ne hij]; exact hb
      rw [List.count_set _ _ _ _ hj2, h1, List.count_set _ _ _ _ hi', ha]
      have h2 := hca c
      have h3 := hcb c
      simp only [beq_iff_eq]
      by_cases g1 : a = c <;> by_cases g2 : b = c
      · have := h2 g1; simp only [g1, g2, if_true]; omega
      · have := h2 g1; simp only [g1, g2, if_true, if_false]; omega
      · have := h3 g2; simp only [g1, g2, if_true, if_false]; omega
      · simp only [g1, g2, if_false]; omega
  · rfl

theorem shuffleFrom_perm {α : Type} (rnd : Nat → Nat) (k : Nat) (xs : List α) :
    (shuffleFrom rnd k xs).Perm xs := by
  induction k generalizing xs with
  | zero => exact List.Perm.refl _
  | succ i ih => exact (ih _).trans (swap_perm xs _ _)

theorem shuffle_perm {α : Type} (rnd : Nat → Nat) (xs : List α) :
    (shuffle rnd xs).Perm xs := shuffleFrom_perm rnd _ xs

/-- Whatever the random source, the cut keeps the first `MaxVideos` discovered videos, in some
order. -/
theorem selectVideos_perm_take (config : Config) (rnd : Nat → Nat)
    (videoInfos : List VideoInfo) (h0 : 0 ≤ config.MaxVideos)
    (hgt : (videoInfos.length : Int) > config.MaxVideos) :
    ∃ l, selectVideos config rnd videoInfos = some l ∧
      l.Perm (videoInfos.take config.MaxVideos.toNat) := by
  unfold selectVideos
  rw [if_pos hgt, if_neg (not_lt.mpr h0)]
  exact ⟨_, rfl, shuffle_perm rnd _⟩

/-- C9 fails on the code: of the three discovered videos `[A, B, C]` with `MaxVideos = 2`, every
random source retains exactly the first two, `A` and `B`, in some order, and never `C`; the
retained set does not depend on the random source. -/
theorem C9_truncation_keeps_first :
    ∀ rnd : Nat → Nat, ∃ l, selectVideos cfgTwo rnd [videoA, videoB, videoC] = some l ∧
      l.Perm [videoA, videoB] ∧ l.length = 2 ∧ videoC ∉ l := by
  intro rnd
  obtain ⟨l, hl, hp⟩ := selectVideos_perm_take cfgTwo rnd [videoA, videoB, videoC]
    (by norm_num [cfgTwo]) (by norm_num [cfgTwo])
  have hp2 : l.Perm [videoA, videoB] := by
    simpa [cfgTwo] using hp
  refine ⟨l, hl, hp2, by simpa using hp2.length_eq, ?_⟩
  intro hc
  have := hp2.subset hc
  revert this
  simp [videoA, videoB, videoC]

end RandomMergeVideo
